import Mathlib

/-!
# AlexNetRT: inference runner, profiler and result ranker

A shallow embedding of `utils/utils.h` and `src/alexnetRT.cpp`.

* `float` values are kept abstract: a type `α` carrying the operations a
  function needs (`+` for the profiler, `+` and `/` for the report, a linear
  order for the comparator `SortByProb`, `*` for the percentage). `Binary32`
  is the arithmetic the compiled code runs in, for evaluating the report on
  concrete totals.
* `std::vector` is a `List`, raw host buffers are `Array`s whose accesses are
  bounds-checked in the model (`none` is an out-of-bounds access).
* `std::sort` is library code; it enters as a parameter `StdSort` carrying
  the guarantee the C++ standard gives for it.
-/

namespace AlexNetRT

/-! ## Constants -/

/-- The constant `TIMING_ITERATIONS` of `utils.h`. -/
def TIMING_ITERATIONS : Nat := 1000

/-- The constant `HOTDOG_INDEX` of `utils.h`. -/
def HOTDOG_INDEX : Nat := 934

/-- The constant `BATCH_SIZE` of `alexnetRT.cpp`. -/
def BATCH_SIZE : Int := 1

/-- The constant `OUTPUT_SIZE` of `alexnetRT.cpp`. -/
def OUTPUT_SIZE : Nat := 1000

/-- The constant `INPUT_H` of `alexnetRT.cpp`. -/
def INPUT_H : Nat := 227

/-- The constant `INPUT_W` of `alexnetRT.cpp`. -/
def INPUT_W : Nat := 227

/-- The constant `INPUT_C` of `alexnetRT.cpp`. -/
def INPUT_C : Nat := 3

/-- The value of `sizeof(float)`. -/
def sizeofFloat : Nat := 4

/-! ## Profiler -/

/-- The type `Profiler::Record`: a layer name with its accumulated time. -/
abbrev Record (α : Type) := String × α

/-- The method `Profiler::reportLayerTime`: `find_if` yields the position of
the first record named `layerName` (the length of the table stands for
`end()`); a missing name is pushed back, a present one has `ms` added. -/
def reportLayerTime {α : Type} [Add α] (mProfile : List (Record α))
    (layerName : String) (ms : α) : List (Record α) :=
  let record := mProfile.findIdx (fun r => r.1 == layerName)
  if record = mProfile.length then
    mProfile ++ [(layerName, ms)]
  else
    mProfile.modify (fun r => (r.1, r.2 + ms)) record

/-- A profiling session: the calls of `reportLayerTime` made one after the
other on a profiler whose table starts as `mProfile`. -/
def reportAll {α : Type} [Add α] (mProfile : List (Record α))
    (calls : List (String × α)) : List (Record α) :=
  calls.foldl (fun table call => reportLayerTime table call.1 call.2) mProfile

/-- What `Profiler::printLayerTimes` prints: the per-layer lines in the order
printed, and the value of the closing line. -/
structure LayerReport (α : Type) where
  /-- One `(name, value)` per line of the loop. -/
  lines : List (String × α)
  /-- The value printed as `Time over all layers`. -/
  total : α

/-- The method `Profiler::printLayerTimes`: `totalTime` starts at `0`, the
loop prints `mProfile[i].second / TIMING_ITERATIONS` and adds
`mProfile[i].second` to `totalTime`; the closing line prints
`totalTime / TIMING_ITERATIONS`. The operations are those of the value type,
whatever they are. -/
def printLayerTimes {α : Type} [Zero α] [Add α] [Div α] [NatCast α]
    (mProfile : List (Record α)) : LayerReport α :=
  let loop := mProfile.foldl
    (fun (st : List (String × α) × α) (r : Record α) =>
      (st.1 ++ [(r.1, r.2 / (TIMING_ITERATIONS : α))], st.2 + r.2))
    (([] : List (String × α)), (0 : α))
  { lines := loop.1, total := loop.2 / (TIMING_ITERATIONS : α) }

/-- The execute loop of `InferAndProfile`:
`for (int i = 0; i < TIMING_ITERATIONS; i++) context->execute(...)`, as a
loop on the counter `i` carrying the state `s` that `execute` transforms. -/
def executeLoop {σ : Type} (execute : σ → σ) : Nat → Nat → σ → σ
  | 0, _, s => s
  | fuel + 1, i, s =>
      if i < TIMING_ITERATIONS then executeLoop execute fuel (i + 1) (execute s) else s

/-- The execute loop started at `i = 0`. -/
def runExecuteLoop {σ : Type} (execute : σ → σ) (s : σ) : σ :=
  executeLoop execute (TIMING_ITERATIONS + 1) 0 s

/-! ### Single-precision arithmetic -/

/-- A non-negative finite `float` (IEEE 754 binary32) `m * 2 ^ e`: zero is
`m = 0, e = 0`, every other value has `2 ^ 23 ≤ m < 2 ^ 24`. The exponent is
not bounded, so the operations below are those of binary32 as long as the
operands and the result are normal numbers (no underflow, no overflow). -/
structure Binary32 where
  /-- The 24-bit significand, as an integer. -/
  m : Nat
  /-- The exponent of the last significand bit. -/
  e : Int
  deriving DecidableEq, Repr

/-- Brings the quotient `num / den` into `[2 ^ 23, 2 ^ 24)` by doubling `num`
or `den`, keeping `num / den * 2 ^ e` the same. -/
def Binary32.scale : Nat → Nat → Nat → Int → Nat × Nat × Int
  | 0, num, den, e => (num, den, e)
  | fuel + 1, num, den, e =>
      if num / den < 2 ^ 23 then Binary32.scale fuel (num * 2) den (e - 1)
      else if 2 ^ 24 ≤ num / den then Binary32.scale fuel num (den * 2) (e + 1)
      else (num, den, e)

/-- The binary32 number nearest to `num / den * 2 ^ e`, ties to the even
significand (the default rounding mode). -/
def Binary32.round (num den : Nat) (e : Int) : Binary32 :=
  if num = 0 ∨ den = 0 then { m := 0, e := 0 }
  else
    let s := Binary32.scale 600 num den e
    let q := s.1 / s.2.1
    let r := s.1 % s.2.1
    let up := decide (s.2.1 < 2 * r) || (decide (2 * r = s.2.1) && decide (q % 2 = 1))
    let q' := if up then q + 1 else q
    if q' = 2 ^ 24 then { m := 2 ^ 23, e := s.2.2 + 1 } else { m := q', e := s.2.2 }

/-- The `float` sum `x + y`: the exact sum, rounded. -/
def Binary32.add (x y : Binary32) : Binary32 :=
  let e := min x.e y.e
  Binary32.round (x.m * 2 ^ (x.e - e).toNat + y.m * 2 ^ (y.e - e).toNat) 1 e

/-- The `float` quotient `x / y` for `y` other than zero: the exact quotient,
rounded. -/
def Binary32.div (x y : Binary32) : Binary32 :=
  Binary32.round x.m y.m (x.e - y.e)

/-- The conversion of a non-negative integer to `float`. -/
def Binary32.ofNat (n : Nat) : Binary32 :=
  Binary32.round n 1 0

/-- The rational number a `Binary32` stands for. -/
def Binary32.toRat (x : Binary32) : ℚ :=
  x.m * (2 : ℚ) ^ x.e

instance : Zero Binary32 := ⟨{ m := 0, e := 0 }⟩

instance : Add Binary32 := ⟨Binary32.add⟩

instance : Div Binary32 := ⟨Binary32.div⟩

instance : NatCast Binary32 := ⟨Binary32.ofNat⟩

/-- A profile table of two layers whose accumulated totals are `1.0f` and
`4.0f` milliseconds. -/
def twoLayerProfile : List (Record Binary32) :=
  [("conv1", Binary32.ofNat 1), ("relu1", Binary32.ofNat 4)]

/-! ### Reference table of a recording session -/

/-- The distinct names of a sequence, in order of first occurrence. -/
def firstSeen : List String → List String
  | [] => []
  | n :: ns => n :: (firstSeen ns).filter (fun m => m != n)

/-- The sum of the values recorded under `name`. -/
def totalOf {α : Type} [AddMonoid α] (calls : List (String × α)) (name : String) : α :=
  ((calls.filter (fun c => c.1 == name)).map Prod.snd).sum

/-- The reference table: each distinct name, in order of first occurrence,
with the sum of the values recorded under it. -/
def referenceTable {α : Type} [AddMonoid α] (calls : List (String × α)) :
    List (Record α) :=
  (firstSeen (calls.map Prod.fst)).map (fun n => (n, totalOf calls n))

/-! ## Result ranker -/

/-- The comparator `SortByProb`: `a.second > b.second`. -/
def SortByProb {α : Type} [LinearOrder α] (a b : Nat × α) : Bool :=
  decide (a.2 > b.2)

/-- The requirement the C++ standard places on the comparator handed to
`std::sort`: a strict weak ordering. -/
structure StrictWeakOrdering {β : Type} (comp : β → β → Bool) : Prop where
  /-- No element is ordered before itself. -/
  irrefl : ∀ a, comp a a = false
  /-- The ordering is transitive. -/
  trans : ∀ a b c, comp a b = true → comp b c = true → comp a c = true
  /-- Being unordered either way is transitive. -/
  equivTrans : ∀ a b c, comp a b = false → comp b a = false →
    comp b c = false → comp c b = false → comp a c = false ∧ comp c a = false

/-- The library function `std::sort(first, last, comp)`, which is not part of
the repository: any function that, for a strict weak ordering `comp`,
rearranges the range (`perm`) so that no element is ordered by `comp` before
one that precedes it (`sorted`). The standard leaves the order of equivalent
elements open, and so does this structure. -/
structure StdSort where
  /-- The rearrangement `std::sort` performs. -/
  sort : {β : Type} → (β → β → Bool) → List β → List β
  /-- The result holds the elements of the range. -/
  perm : ∀ {β : Type} (comp : β → β → Bool) (l : List β),
    StrictWeakOrdering comp → (sort comp l).Perm l
  /-- The result is sorted with respect to `comp`. -/
  sorted : ∀ {β : Type} (comp : β → β → Bool) (l : List β),
    StrictWeakOrdering comp → (sort comp l).Pairwise (fun a b => comp b a = false)

/-- Insertion of `a` into a sorted list, after every element that `a` is not
ordered before. -/
def insertSorted {β : Type} (comp : β → β → Bool) (a : β) : List β → List β
  | [] => [a]
  | b :: l => if comp a b then a :: b :: l else b :: insertSorted comp a l

/-- An insertion sort that works from the back of the range to the front, so
an element lands behind the equivalent elements that followed it. -/
def insertionSortBack {β : Type} (comp : β → β → Bool) : List β → List β
  | [] => []
  | a :: l => insertSorted comp a (insertionSortBack comp l)

/-- A function that meets the guarantee of `std::sort`: the insertion sort
`insertionSortBack`. -/
def backSort : StdSort where
  sort := fun comp l => insertionSortBack comp l
  perm := by
    intro β comp l _
    have hins : ∀ (a : β) (l : List β), (insertSorted comp a l).Perm (a :: l) := by
      intro a l
      induction l with
      | nil => exact List.Perm.refl _
      | cons b l ih =>
        unfold insertSorted
        by_cases hc : comp a b = true
        · rw [if_pos hc]
        · rw [if_neg hc]
          exact (List.Perm.cons b ih).trans (List.Perm.swap a b l)
    induction l with
    | nil => exact List.Perm.refl _
    | cons a l ih =>
      exact (hins a (insertionSortBack comp l)).trans (List.Perm.cons a ih)
  sorted := by
    intro β comp l hswo
    have hmem : ∀ (a x : β) (l : List β), x ∈ insertSorted comp a l → x = a ∨ x ∈ l := by
      intro a x l
      induction l with
      | nil => intro hx; simpa [insertSorted] using hx
      | cons b l ih =>
        unfold insertSorted
        by_cases hc : comp a b = true
        · rw [if_pos hc]
          intro hx
          simpa using hx
        · rw [if_neg hc]
          intro hx
          rcases List.mem_cons.1 hx with e | e
          · exact Or.inr (by simp [e])
          · rcases ih e with e2 | e2
            · exact Or.inl e2
            · exact Or.inr (by simp [e2])
    have hins : ∀ (a : β) (l : List β), l.Pairwise (fun x y => comp y x = false) →
        (insertSorted comp a l).Pairwise (fun x y => comp y x = false) := by
      intro a l
      induction l with
      | nil => intro _; simp [insertSorted]
      | cons b l ih =>
        intro hl
        rw [List.pairwise_cons] at hl
        unfold insertSorted
        by_cases hc : comp a b = true
        · rw [if_pos hc]
          refine List.pairwise_cons.2 ⟨?_, List.pairwise_cons.2 hl⟩
          intro y hy
          cases hya : comp y a with
          | false => rfl
          | true =>
            exfalso
            rcases List.mem_cons.1 hy with e | e
            · subst e
              have := hswo.trans y a y hya hc
              rw [hswo.irrefl] at this
              exact Bool.noConfusion this
            · have h1 := hswo.trans y a b hya hc
              rw [hl.1 y e] at h1
              exact Bool.noConfusion h1
        · rw [if_neg hc]
          refine List.pairwise_cons.2 ⟨?_, ih hl.2⟩
          intro y hy
          rcases hmem a y l hy with e | e
          · subst e
            simpa using hc
          · exact hl.1 y e
    induction l with
    | nil => simp [insertionSortBack]
    | cons a l ih => exact hins a _ ih

/-- The function `ReadImageNetLabels`: one label per line of the file, in
order; a file that cannot be opened (`none`) gives the empty table. -/
def ReadImageNetLabels (labelFile : Option (List String)) : List String :=
  match labelFile with
  | none => []
  | some fileLines => fileLines.foldl (fun labels line => labels ++ [line]) []

/-- What `PrintInference` writes to the terminal, one value per `printf`. -/
inductive Printed (α : Type) where
  /-- The line `HOT DOT!!!`. -/
  | hotDog
  /-- The line `NOT HOT DOT!!!`. -/
  | notHotDog
  /-- The line `Results of inference sorted by confidence:`. -/
  | header
  /-- A row of the top-5 table: the label and `probability * 100`. -/
  | row (label : String) (percent : α)
  deriving DecidableEq, Repr

/-- How a call of `PrintInference` ends: what it printed, and whether a
`std::vector::at` raised `std::out_of_range`. -/
structure Outcome (α : Type) where
  /-- The lines printed, in order. -/
  printed : List (Printed α)
  /-- Whether an `at` raised. -/
  threw : Bool
  deriving DecidableEq, Repr

/-- The loop `for (int i = 0; i < 1000; ++i) results.push_back(...)` of
`PrintInference`; `prob` is the memory behind the pointer, read at `prob[i]`. -/
def pushResults {α : Type} (prob : Nat → α) : List (Nat × α) :=
  (List.range 1000).foldl (fun results i => results ++ [(i, prob i)]) []

/-- The vector `results` of `PrintInference` after the call of `std::sort`. -/
def rankedResults {α : Type} [LinearOrder α] (S : StdSort) (prob : Nat → α) :
    List (Nat × α) :=
  S.sort SortByProb (pushResults prob)

/-- The loop `for (int i = 0; i < 5; ++i)` of the top-k branch, over the
values `i` still to run: `results.at(i)` and `labels.at(index)` raise on an
index out of range, which ends the function before the row is printed. -/
def printRows {α : Type} [Mul α] [NatCast α] (results : List (Nat × α))
    (labels : List String) : List Nat → Outcome α
  | [] => { printed := [], threw := false }
  | i :: rest =>
      match results[i]? with
      | none => { printed := [], threw := true }
      | some r =>
          match labels[r.1]? with
          | none => { printed := [], threw := true }
          | some label =>
              let after := printRows results labels rest
              { printed := Printed.row label (r.2 * ((100 : Nat) : α)) :: after.printed,
                threw := after.threw }

/-- The function `PrintInference`. -/
def PrintInference {α : Type} [LinearOrder α] [Mul α] [NatCast α] (S : StdSort)
    (prob : Nat → α) (labelFile : Option (List String)) (hotdogMode : Bool) : Outcome α :=
  let labels := ReadImageNetLabels labelFile
  let results := rankedResults S prob
  if hotdogMode then
    match results[0]? with
    | none => { printed := [], threw := true }
    | some r =>
        if r.1 = HOTDOG_INDEX then { printed := [Printed.hotDog], threw := false }
        else { printed := [Printed.notHotDog], threw := false }
  else
    let rows := printRows results labels (List.range 5)
    { printed := Printed.header :: rows.printed, threw := rows.threw }

/-- An entry `a` stands before an entry `b` in a list. -/
def Before {β : Type} (a b : β) (l : List β) : Prop :=
  ∃ p q : Nat, p < q ∧ l[p]? = some a ∧ l[q]? = some b

/-! ## Inference runner -/

/-- The type `Dims3`: the extents `d[0]`, `d[1]`, `d[2]` of a binding, each a
C `int`. -/
structure Dims3 where
  /-- The extent `d[0]`. -/
  d0 : Int
  /-- The extent `d[1]`. -/
  d1 : Int
  /-- The extent `d[2]`. -/
  d2 : Int
  deriving DecidableEq, Repr

/-- The value a 32-bit `int` holds after an arithmetic result `x`
(two's complement wrap-around). -/
def wrapInt (x : Int) : Int :=
  (x + 2 ^ 31) % 2 ^ 32 - 2 ^ 31

/-- The conversion of an `int` to the 64-bit `size_t`. -/
def toSizeT (x : Int) : Nat :=
  (x % 2 ^ 64).toNat

/-- The expression
`batchSize * dims.d[0] * dims.d[1] * dims.d[2] * sizeof(float)` of
`InferAndProfile`: the first three products are `int` products, the last one
is a `size_t` product. -/
def bindingBytes (batchSize : Int) (dims : Dims3) : Nat :=
  (toSizeT (wrapInt (wrapInt (wrapInt (batchSize * dims.d0) * dims.d1) * dims.d2))
    * sizeofFloat) % 2 ^ 64

/-- The assignment
`data[channel * pixels + i] = float(input[i * INPUT_C + 2 - channel])`;
`none` when the index read or the index written is outside its buffer. The
`float` of a byte is its numeric value. -/
def storePixel (input : Array UInt8) (channel pixels i : Nat) (data : Array Nat) :
    Option (Array Nat) :=
  if h : i * INPUT_C + 2 - channel < input.size ∧ channel * pixels + i < data.size then
    some (data.set ⟨channel * pixels + i, h.2⟩ (input[i * INPUT_C + 2 - channel]).toNat)
  else
    none

/-- The two nested loops of the preprocessing step, run on the buffer `data`
that `new float[...]` returned. -/
def preprocessLoops (input : Array UInt8) (data : Array Nat) : Option (Array Nat) :=
  (List.range INPUT_C).foldlM
    (fun data channel =>
      let pixels := INPUT_H * INPUT_W
      (List.range pixels).foldlM (fun data i => storePixel input channel pixels i data) data)
    data

/-- The preprocessing step of `InferAndProfile`: `data` is allocated with
`INPUT_H * INPUT_W * INPUT_C` elements (whose first contents are `garbage`)
and filled by the loops. -/
def preprocess (input : Array UInt8) (garbage : Nat) : Option (Array Nat) :=
  preprocessLoops input (Array.mkArray (INPUT_H * INPUT_W * INPUT_C) garbage)

/-- The engine as far as `InferAndProfile` reads it: the number of bindings
and the dimensions of the bindings named `data` and `prob`. -/
structure ICudaEngine where
  /-- The value of `getNbBindings()`. -/
  nbBindings : Int
  /-- The dimensions of the input binding. -/
  inputDims : Dims3
  /-- The dimensions of the output binding. -/
  outputDims : Dims3
  deriving DecidableEq, Repr

/-- The number of elements of the output binding, `d0 * d1 * d2`. -/
def ICudaEngine.outputElements (engine : ICudaEngine) : Int :=
  engine.outputDims.d0 * engine.outputDims.d1 * engine.outputDims.d2

/-- The CUDA runtime as `InferAndProfile` meets it: the status each call
returns (`0` is success) and the floats the output buffer holds after the
last `execute`. -/
structure Cuda (α : Type) where
  /-- Status of `cudaMalloc` for the input buffer. -/
  mallocInput : Nat
  /-- Status of `cudaMalloc` for the output buffer. -/
  mallocOutput : Nat
  /-- Status of the host-to-device `cudaMemcpy`. -/
  memcpyToDevice : Nat
  /-- Status of the device-to-host `cudaMemcpy`. -/
  memcpyToHost : Nat
  /-- Status of `cudaFree` for the input buffer. -/
  freeInput : Nat
  /-- Status of `cudaFree` for the output buffer. -/
  freeOutput : Nat
  /-- The output buffer on the device, by element. -/
  deviceOutput : Nat → α

/-- The device resources `InferAndProfile` holds at some point. -/
structure Held where
  /-- The execution context is created and not destroyed. -/
  context : Bool
  /-- The input buffer is allocated and not freed. -/
  inputBuffer : Bool
  /-- The output buffer is allocated and not freed. -/
  outputBuffer : Bool
  deriving DecidableEq, Repr

/-- How `InferAndProfile` is left. -/
inductive Exit where
  /-- The function returned to `main`. -/
  | returned
  /-- An `assert` or a `CHECK` called `abort()`. -/
  | aborted
  /-- An exception left the function. -/
  | threw
  deriving DecidableEq, Repr

/-- What a call of `InferAndProfile` did. -/
structure Run (α : Type) where
  /-- How the function was left. -/
  exit : Exit
  /-- The device resources still held at that point. -/
  held : Held
  /-- The value of `inputSize`. -/
  inputSize : Nat
  /-- The value of `outputSize`. -/
  outputSize : Nat
  /-- The number of calls of `context->execute`. -/
  executions : Nat
  /-- The number of floats the device-to-host copy transferred. -/
  copiedBack : Nat
  /-- The vector `results` that `PrintInference` ranked, when it was called. -/
  ranked : List (Nat × α)
  /-- What `PrintInference` printed, when it was called. -/
  printed : List (Printed α)

/-- The function `InferAndProfile`, statement by statement; `input` is the
buffer `ReadPPMImage` filled and `labelFile` the lines of the label file. -/
def InferAndProfile {α : Type} [LinearOrder α] [Mul α] [NatCast α] (S : StdSort)
    (cuda : Cuda α) (engine : ICudaEngine) (batchSize : Int) (input : Array UInt8)
    (labelFile : Option (List String)) (hotdogMode : Bool) : Run α :=
  let inputSize := bindingBytes batchSize engine.inputDims
  let outputSize := bindingBytes batchSize engine.outputDims
  let start : Run α :=
    { exit := Exit.aborted, held := { context := false, inputBuffer := false, outputBuffer := false },
      inputSize := inputSize, outputSize := outputSize, executions := 0, copiedBack := 0,
      ranked := [], printed := [] }
  -- assert(engine->getNbBindings() == 2)
  if engine.nbBindings ≠ 2 then start
  -- createExecutionContext, CHECK(cudaMalloc(&buffers[inputIndex], inputSize))
  else if cuda.mallocInput ≠ 0 then
    { start with held := { context := true, inputBuffer := false, outputBuffer := false } }
  -- CHECK(cudaMalloc(&buffers[outputIndex], outputSize))
  else if cuda.mallocOutput ≠ 0 then
    { start with held := { context := true, inputBuffer := true, outputBuffer := false } }
  else
    let acquired : Run α :=
      { start with held := { context := true, inputBuffer := true, outputBuffer := true } }
    -- the preprocessing loops; an access outside a buffer ends the run here
    match preprocess input 0 with
    | none => acquired
    | some _ =>
      -- CHECK(cudaMemcpy(buffers[inputIndex], data, inputSize, cudaMemcpyHostToDevice))
      if cuda.memcpyToDevice ≠ 0 then acquired
      else
        let executed : Run α :=
          { acquired with executions := runExecuteLoop (fun calls : Nat => calls + 1) 0 }
        -- CHECK(cudaMemcpy(prob, buffers[outputIndex], OUTPUT_SIZE * sizeof(float), ...))
        if cuda.memcpyToHost ≠ 0 then executed
        else
          let prob : Nat → α := cuda.deviceOutput
          let copied : Run α :=
            { executed with copiedBack := OUTPUT_SIZE * sizeofFloat / sizeofFloat }
          let outcome := PrintInference S prob labelFile hotdogMode
          let reported : Run α :=
            { copied with ranked := rankedResults S prob, printed := outcome.printed }
          if outcome.threw then { reported with exit := Exit.threw }
          -- context->destroy(), CHECK(cudaFree(buffers[inputIndex]))
          else if cuda.freeInput ≠ 0 then
            { reported with held := { context := false, inputBuffer := true, outputBuffer := true } }
          -- CHECK(cudaFree(buffers[outputIndex]))
          else if cuda.freeOutput ≠ 0 then
            { reported with held := { context := false, inputBuffer := false, outputBuffer := true } }
          else
            { reported with
              exit := Exit.returned,
              held := { context := false, inputBuffer := false, outputBuffer := false } }

/-! ### Sample inputs -/

/-- An image buffer of the configured size whose bytes are all zero. -/
def zeroImage : Array UInt8 :=
  Array.mkArray (INPUT_H * INPUT_W * INPUT_C) 0

/-- A CUDA runtime in which every call succeeds and the output buffer holds
zeros. -/
def okCuda : Cuda ℚ :=
  { mallocInput := 0, mallocOutput := 0, memcpyToDevice := 0, memcpyToHost := 0,
    freeInput := 0, freeOutput := 0, deviceOutput := fun _ => 0 }

/-- An engine with the AlexNet bindings: input (3, 227, 227), output
(1000, 1, 1). -/
def alexnetEngine : ICudaEngine :=
  { nbBindings := 2, inputDims := { d0 := 3, d1 := 227, d2 := 227 },
    outputDims := { d0 := 1000, d1 := 1, d2 := 1 } }

/-- An engine whose output binding has 1001 elements. -/
def wideEngine : ICudaEngine :=
  { nbBindings := 2, inputDims := { d0 := 3, d1 := 227, d2 := 227 },
    outputDims := { d0 := 1001, d1 := 1, d2 := 1 } }

/-! ## Profiler: lemmas -/

theorem reportLayerTime_nil {α : Type} [Add α] (n : String) (v : α) :
    reportLayerTime ([] : List (Record α)) n v = [(n, v)] := by
  simp [reportLayerTime]

theorem reportLayerTime_cons {α : Type} [Add α] (r : Record α)
    (rest : List (Record α)) (n : String) (v : α) :
    reportLayerTime (r :: rest) n v =
      if r.1 = n then (r.1, r.2 + v) :: rest else r :: reportLayerTime rest n v := by
  unfold reportLayerTime
  by_cases h : r.1 = n
  · simp [h, List.findIdx_cons, List.modify]
  · have hb : (r.1 == n) = false := by simpa using h
    simp only [List.findIdx_cons, hb, cond_false, List.length_cons, add_left_inj, h, if_false]
    by_cases hk : List.findIdx (fun r => r.1 == n) rest = rest.length
    · simp [hk]
    · simp [hk, List.modify]

theorem mem_firstSeen (ns : List String) (n : String) : n ∈ firstSeen ns ↔ n ∈ ns := by
  induction ns with
  | nil => simp [firstSeen]
  | cons m ns ih =>
    simp only [firstSeen, List.mem_cons, List.mem_filter, ih]
    by_cases h : n = m
    · simp [h]
    · simp [h]

theorem firstSeen_nodup (ns : List String) : (firstSeen ns).Nodup := by
  induction ns with
  | nil => simp [firstSeen]
  | cons m ns ih =>
    simp only [firstSeen, List.nodup_cons, List.mem_filter]
    exact ⟨by simp, ih.filter _⟩

theorem firstSeen_append_singleton (ns : List String) (n : String) :
    firstSeen (ns ++ [n]) = if n ∈ ns then firstSeen ns else firstSeen ns ++ [n] := by
  induction ns with
  | nil => simp [firstSeen]
  | cons m ns ih =>
    rw [List.cons_append, firstSeen, ih, firstSeen]
    by_cases hmem : n ∈ ns
    · simp [hmem]
    · by_cases hnm : n = m
      · subst hnm
        simp [hmem, List.filter_append]
      · simp [hmem, hnm, List.filter_append]

theorem totalOf_append_singleton {α : Type} [AddMonoid α] (calls : List (String × α))
    (n : String) (v : α) (m : String) :
    totalOf (calls ++ [(n, v)]) m = if m = n then totalOf calls m + v else totalOf calls m := by
  unfold totalOf
  by_cases h : n = m
  · subst h
    simp [List.filter_append]
  · have h2 : ¬ m = n := fun e => h e.symm
    simp [List.filter_append, h, h2]

theorem totalOf_of_not_mem {α : Type} [AddMonoid α] (calls : List (String × α))
    (n : String) (h : n ∉ calls.map Prod.fst) : totalOf calls n = 0 := by
  unfold totalOf
  have : calls.filter (fun c => c.1 == n) = [] := by
    rw [List.filter_eq_nil_iff]
    intro c hc hcn
    exact h (List.mem_map.2 ⟨c, hc, by simpa using hcn⟩)
  simp [this]

theorem reportLayerTime_map_of_not_mem {α : Type} [Add α] (names : List String)
    (f : String → α) (n : String) (v : α) (h : n ∉ names) :
    reportLayerTime (names.map (fun m => (m, f m))) n v =
      names.map (fun m => (m, f m)) ++ [(n, v)] := by
  induction names with
  | nil => simp [reportLayerTime_nil]
  | cons m ms ih =>
    have hm : ¬ m = n := fun e => h (by simp [e])
    have hms : n ∉ ms := fun e => h (by simp [e])
    simp [reportLayerTime_cons, hm, ih hms]

theorem reportLayerTime_map_of_mem {α : Type} [Add α] (names : List String)
    (f : String → α) (n : String) (v : α) (h : n ∈ names) (hnd : names.Nodup) :
    reportLayerTime (names.map (fun m => (m, f m))) n v =
      names.map (fun m => (m, if m = n then f m + v else f m)) := by
  induction names with
  | nil => simp at h
  | cons m ms ih =>
    rw [List.nodup_cons] at hnd
    simp only [List.map_cons, reportLayerTime_cons]
    by_cases hm : m = n
    · subst hm
      simp only [if_true, List.cons.injEq, true_and]
      refine List.map_congr_left ?_
      intro k hk
      have : ¬ k = m := fun e => hnd.1 (e ▸ hk)
      simp [this]
    · have hms : n ∈ ms := by
        rcases List.mem_cons.1 h with e | e
        · exact absurd e.symm hm
        · exact e
      simp [hm, ih hms hnd.2]

theorem reportLayerTime_referenceTable {α : Type} [AddMonoid α]
    (calls : List (String × α)) (n : String) (v : α) :
    reportLayerTime (referenceTable calls) n v = referenceTable (calls ++ [(n, v)]) := by
  unfold referenceTable
  rw [List.map_append, List.map_singleton, firstSeen_append_singleton]
  by_cases h : n ∈ calls.map Prod.fst
  · rw [if_pos h, reportLayerTime_map_of_mem _ _ _ _ ((mem_firstSeen _ _).2 h)
      (firstSeen_nodup _)]
    refine List.map_congr_left ?_
    intro k _
    rw [totalOf_append_singleton]
  · rw [if_neg h, reportLayerTime_map_of_not_mem _ _ _ _ (fun e => h ((mem_firstSeen _ _).1 e)),
      List.map_append, List.map_singleton]
    congr 1
    · refine List.map_congr_left ?_
      intro k hk
      have : ¬ k = n := fun e => h ((mem_firstSeen _ _).1 (e ▸ hk))
      rw [totalOf_append_singleton, if_neg this]
    · rw [totalOf_append_singleton, if_pos rfl, totalOf_of_not_mem _ _ h, zero_add]

theorem reportAll_referenceTable {α : Type} [AddMonoid α]
    (pre calls : List (String × α)) :
    reportAll (referenceTable pre) calls = referenceTable (pre ++ calls) := by
  induction calls generalizing pre with
  | nil => simp [reportAll]
  | cons c cs ih =>
    have step : reportAll (referenceTable pre) (c :: cs) =
        reportAll (reportLayerTime (referenceTable pre) c.1 c.2) cs := rfl
    rw [step, reportLayerTime_referenceTable, ih]
    simp

theorem printLayerTimes_loop {α : Type} [Zero α] [Add α] [Div α] [NatCast α]
    (mProfile : List (Record α)) (st : List (String × α) × α) :
    mProfile.foldl
      (fun (st : List (String × α) × α) (r : Record α) =>
        (st.1 ++ [(r.1, r.2 / (TIMING_ITERATIONS : α))], st.2 + r.2)) st
    = (st.1 ++ mProfile.map (fun r => (r.1, r.2 / (TIMING_ITERATIONS : α))),
       mProfile.foldl (fun totalTime r => totalTime + r.2) st.2) := by
  induction mProfile generalizing st with
  | nil => simp
  | cons r rs ih =>
    rw [List.foldl_cons, ih]
    simp

theorem foldl_add_eq_sum {β : Type} [DivisionRing β] (l : List (Record β)) (acc : β) :
    l.foldl (fun totalTime r => totalTime + r.2) acc = acc + (l.map Prod.snd).sum := by
  induction l generalizing acc with
  | nil => simp
  | cons r rs ih =>
    rw [List.foldl_cons, ih]
    simp [add_assoc]

theorem sum_div_timing_iterations {β : Type} [DivisionRing β] (l : List (Record β)) :
    (l.map Prod.snd).sum / (TIMING_ITERATIONS : β)
      = ((l.map (fun r : Record β => (r.1, r.2 / (TIMING_ITERATIONS : β)))).map Prod.snd).sum := by
  induction l with
  | nil => simp
  | cons r rs ih =>
    simp only [List.map_cons, List.sum_cons, add_div, ih]

theorem executeLoop_eq_iterate {σ : Type} (execute : σ → σ) (fuel i : Nat) (s : σ)
    (h : TIMING_ITERATIONS - i < fuel) :
    executeLoop execute fuel i s = execute^[TIMING_ITERATIONS - i] s := by
  induction fuel generalizing i s with
  | zero => omega
  | succ fuel ih =>
    unfold executeLoop
    by_cases hi : i < TIMING_ITERATIONS
    · rw [if_pos hi, ih (i + 1) (execute s) (by omega)]
      have : TIMING_ITERATIONS - i = (TIMING_ITERATIONS - (i + 1)) + 1 := by omega
      rw [this, Function.iterate_succ_apply]
    · rw [if_neg hi]
      have : TIMING_ITERATIONS - i = 0 := by omega
      rw [this, Function.iterate_zero_apply]

/-! ## Result ranker: lemmas -/

theorem sortByProb_strictWeakOrdering {α : Type} [LinearOrder α] :
    StrictWeakOrdering (SortByProb : Nat × α → Nat × α → Bool) where
  irrefl := by
    intro a
    simp [SortByProb]
  trans := by
    intro a b c hab hbc
    simp only [SortByProb, gt_iff_lt, decide_eq_true_eq] at *
    exact lt_trans hbc hab
  equivTrans := by
    intro a b c h1 h2 h3 h4
    simp only [SortByProb, gt_iff_lt, decide_eq_false_iff_not, not_lt] at *
    have hab : a.2 = b.2 := le_antisymm h1 h2
    have hbc : b.2 = c.2 := le_antisymm h3 h4
    constructor
    · rw [hab, hbc]
    · rw [hab, hbc]

theorem pushResults_eq_map {α : Type} (prob : Nat → α) :
    pushResults prob = (List.range 1000).map (fun i => (i, prob i)) := by
  unfold pushResults
  have h : ∀ (l : List Nat) (acc : List (Nat × α)),
      l.foldl (fun results i => results ++ [(i, prob i)]) acc
        = acc ++ l.map (fun i => (i, prob i)) := by
    intro l
    induction l with
    | nil => intro acc; simp
    | cons i l ih => intro acc; rw [List.foldl_cons, ih]; simp
  rw [h]
  simp

theorem mem_pushResults {α : Type} (prob : Nat → α) (e : Nat × α) :
    e ∈ pushResults prob ↔ e.1 < 1000 ∧ e.2 = prob e.1 := by
  rw [pushResults_eq_map, List.mem_map]
  constructor
  · rintro ⟨i, hi, rfl⟩
    exact ⟨List.mem_range.1 hi, rfl⟩
  · rintro ⟨h1, h2⟩
    exact ⟨e.1, List.mem_range.2 h1, by rw [← h2]⟩

theorem pushResults_nodup {α : Type} (prob : Nat → α) : (pushResults prob).Nodup := by
  rw [pushResults_eq_map]
  refine List.Nodup.map ?_ (List.nodup_range 1000)
  intro i j h
  exact congrArg Prod.fst h

theorem rankedResults_perm {α : Type} [LinearOrder α] (S : StdSort) (prob : Nat → α) :
    (rankedResults S prob).Perm (pushResults prob) :=
  S.perm SortByProb (pushResults prob) sortByProb_strictWeakOrdering

theorem rankedResults_sorted {α : Type} [LinearOrder α] (S : StdSort) (prob : Nat → α) :
    (rankedResults S prob).Pairwise (fun a b => b.2 ≤ a.2) := by
  have h := S.sorted SortByProb (pushResults prob) sortByProb_strictWeakOrdering
  refine List.Pairwise.imp ?_ h
  intro a b hab
  simpa [SortByProb] using hab

theorem rankedResults_length {α : Type} [LinearOrder α] (S : StdSort) (prob : Nat → α) :
    (rankedResults S prob).length = 1000 := by
  rw [(rankedResults_perm S prob).length_eq, pushResults_eq_map]
  simp

theorem mem_rankedResults {α : Type} [LinearOrder α] (S : StdSort) (prob : Nat → α)
    (e : Nat × α) : e ∈ rankedResults S prob ↔ e.1 < 1000 ∧ e.2 = prob e.1 := by
  rw [(rankedResults_perm S prob).mem_iff, mem_pushResults]

theorem rankedResults_nodup {α : Type} [LinearOrder α] (S : StdSort) (prob : Nat → α) :
    (rankedResults S prob).Nodup :=
  (rankedResults_perm S prob).nodup_iff.2 (pushResults_nodup prob)

theorem rankedResults_getElem?_le {α : Type} [LinearOrder α] (S : StdSort) (prob : Nat → α)
    (p q : Nat) (a b : Nat × α) (hpq : p < q) (ha : (rankedResults S prob)[p]? = some a)
    (hb : (rankedResults S prob)[q]? = some b) : b.2 ≤ a.2 := by
  obtain ⟨hp, rfl⟩ := List.getElem?_eq_some.1 ha
  obtain ⟨hq, rfl⟩ := List.getElem?_eq_some.1 hb
  exact List.pairwise_iff_getElem.1 (rankedResults_sorted S prob) p q hp hq hpq

theorem before_or_before {β : Type} (l : List β) (a b : β) (hab : a ≠ b) (ha : a ∈ l)
    (hb : b ∈ l) : Before a b l ∨ Before b a l := by
  obtain ⟨p, hp⟩ := List.mem_iff_getElem?.1 ha
  obtain ⟨q, hq⟩ := List.mem_iff_getElem?.1 hb
  rcases Nat.lt_trichotomy p q with h | h | h
  · exact Or.inl ⟨p, q, h, hp, hq⟩
  · subst h
    rw [hp] at hq
    exact absurd (Option.some.inj hq) hab
  · exact Or.inr ⟨q, p, h, hq, hp⟩

theorem rankedResults_before_of_gt {α : Type} [LinearOrder α] (S : StdSort) (prob : Nat → α)
    (i j : Nat) (hi : i < 1000) (hj : j < 1000) (h : prob j < prob i) :
    Before (i, prob i) (j, prob j) (rankedResults S prob) := by
  have hne : (i, prob i) ≠ (j, prob j) := by
    intro e
    have := congrArg Prod.snd e
    simp only at this
    rw [this] at h
    exact lt_irrefl _ h
  have hmi : (i, prob i) ∈ rankedResults S prob := (mem_rankedResults S prob _).2 ⟨hi, rfl⟩
  have hmj : (j, prob j) ∈ rankedResults S prob := (mem_rankedResults S prob _).2 ⟨hj, rfl⟩
  rcases before_or_before _ _ _ hne hmi hmj with hb | hb
  · exact hb
  · obtain ⟨p, q, hpq, hp, hq⟩ := hb
    have := rankedResults_getElem?_le S prob p q _ _ hpq hp hq
    exact absurd this (not_le.2 h)

theorem rankedResults_head {α : Type} [LinearOrder α] (S : StdSort) (prob : Nat → α) :
    ∃ top : Nat × α, (rankedResults S prob)[0]? = some top ∧ top.1 < 1000 ∧
      top.2 = prob top.1 ∧ ∀ i, i < 1000 → prob i ≤ top.2 := by
  have hlen := rankedResults_length S prob
  have h0 : 0 < (rankedResults S prob).length := by omega
  refine ⟨(rankedResults S prob)[0], List.getElem?_eq_getElem h0, ?_, ?_, ?_⟩
  · exact ((mem_rankedResults S prob _).1 (List.getElem_mem h0)).1
  · exact ((mem_rankedResults S prob _).1 (List.getElem_mem h0)).2
  · intro i hi
    have hmi : (i, prob i) ∈ rankedResults S prob := (mem_rankedResults S prob _).2 ⟨hi, rfl⟩
    obtain ⟨q, hq⟩ := List.mem_iff_getElem?.1 hmi
    rcases Nat.eq_zero_or_pos q with hq0 | hq0
    · subst hq0
      rw [List.getElem?_eq_getElem h0] at hq
      rw [Option.some.inj hq]
    · exact rankedResults_getElem?_le S prob 0 q _ (i, prob i) hq0
        (List.getElem?_eq_getElem h0) hq

theorem rankedResults_head_of_unique_max {α : Type} [LinearOrder α] (S : StdSort)
    (prob : Nat → α) (m : Nat) (hm : m < 1000)
    (hmax : ∀ i, i < 1000 → i ≠ m → prob i < prob m) :
    (rankedResults S prob)[0]? = some (m, prob m) := by
  obtain ⟨top, htop, hlt, hval, hge⟩ := rankedResults_head S prob
  have hidx : top.1 = m := by
    by_contra hne
    have h1 := hmax top.1 hlt hne
    have h2 := hge m hm
    rw [hval] at h2
    exact absurd h2 (not_le.2 h1)
  rw [htop]
  congr 1
  apply Prod.ext
  · exact hidx
  · rw [hval, hidx]

theorem insertionSortBack_of_unordered {β : Type} (comp : β → β → Bool) (l : List β)
    (h : ∀ a b, a ∈ l → b ∈ l → comp a b = false) : insertionSortBack comp l = l.reverse := by
  have hins : ∀ (a : β) (k : List β), (∀ b, b ∈ k → comp a b = false) →
      insertSorted comp a k = k ++ [a] := by
    intro a k
    induction k with
    | nil => intro _; rfl
    | cons b k ih =>
      intro hk
      unfold insertSorted
      rw [hk b (by simp)]
      simp only [Bool.false_eq_true, if_false, List.cons_append, List.cons.injEq, true_and]
      exact ih (fun c hc => hk c (by simp [hc]))
  induction l with
  | nil => rfl
  | cons a l ih =>
    unfold insertionSortBack
    rw [ih (fun x y hx hy => h x y (by simp [hx]) (by simp [hy])), List.reverse_cons]
    apply hins
    intro b hb
    exact h a b (by simp) (by simp [List.mem_reverse.1 hb])

theorem rankedResults_backSort_const (c : ℚ) :
    rankedResults backSort (fun _ : Nat => c) = (pushResults (fun _ : Nat => c)).reverse := by
  have hsort : ∀ l : List (Nat × ℚ),
      backSort.sort SortByProb l = insertionSortBack SortByProb l := fun _ => rfl
  unfold rankedResults
  rw [hsort]
  apply insertionSortBack_of_unordered
  intro a b ha hb
  have h1 := ((mem_pushResults _ a).1 ha).2
  have h2 := ((mem_pushResults _ b).1 hb).2
  simp [SortByProb, h1, h2]

theorem rankedResults_backSort_const_getElem? (c : ℚ) (p : Nat) (hp : p < 1000) :
    (rankedResults backSort (fun _ : Nat => c))[p]? = some (999 - p, c) := by
  rw [rankedResults_backSort_const, List.getElem?_reverse (by rw [pushResults_eq_map]; simpa using hp),
    pushResults_eq_map]
  simp only [List.length_map, List.length_range, List.getElem?_map]
  rw [List.getElem?_range (by omega)]
  simp

theorem readImageNetLabels_some (fileLines : List String) :
    ReadImageNetLabels (some fileLines) = fileLines := by
  have h : ∀ (l acc : List String),
      l.foldl (fun labels line => labels ++ [line]) acc = acc ++ l := by
    intro l
    induction l with
    | nil => intro acc; simp
    | cons x l ih => intro acc; rw [List.foldl_cons, ih]; simp
  simp [ReadImageNetLabels, h]

theorem printRows_threw {α : Type} [Mul α] [NatCast α] (results : List (Nat × α))
    (labels : List String) (is : List Nat)
    (h : ∃ i e, i ∈ is ∧ results[i]? = some e ∧ labels.length ≤ e.1) :
    (printRows results labels is).threw = true := by
  induction is with
  | nil =>
    obtain ⟨i, _, hi, _⟩ := h
    simp at hi
  | cons j is ih =>
    unfold printRows
    cases hr : results[j]? with
    | none => rfl
    | some r =>
      simp only
      cases hl : labels[r.1]? with
      | none => rfl
      | some label =>
        simp only
        apply ih
        obtain ⟨i, e, hi, he, hle⟩ := h
        rcases List.mem_cons.1 hi with hij | hin
        · subst hij
          rw [hr] at he
          have hre := Option.some.inj he
          subst hre
          have hlt : r.1 < labels.length := (List.getElem?_eq_some.1 hl).1
          omega
        · exact ⟨i, e, hin, he, hle⟩

theorem printRows_ok {α : Type} [Mul α] [NatCast α] (results : List (Nat × α))
    (labels : List String) (is : List Nat)
    (h : ∀ i, i ∈ is → ∃ e, results[i]? = some e ∧ e.1 < labels.length) :
    (printRows results labels is).threw = false ∧
    (printRows results labels is).printed.length = is.length ∧
    ∀ (k i : Nat), is[k]? = some i → ∃ (e : Nat × α) (label : String),
      results[i]? = some e ∧ labels[e.1]? = some label ∧
      (printRows results labels is).printed[k]? =
        some (Printed.row label (e.2 * ((100 : Nat) : α))) := by
  induction is with
  | nil =>
    refine ⟨rfl, rfl, ?_⟩
    intro k i hk
    simp at hk
  | cons j is ih =>
    obtain ⟨e, he, hlt⟩ := h j (by simp)
    have hl : labels[e.1]? = some labels[e.1] := List.getElem?_eq_getElem hlt
    obtain ⟨ih1, ih2, ih3⟩ := ih (fun i hi => h i (by simp [hi]))
    unfold printRows
    rw [he]
    simp only
    rw [hl]
    simp only
    refine ⟨ih1, by simp [ih2], ?_⟩
    intro k i hk
    cases k with
    | zero =>
      simp only [List.getElem?_cons_zero, Option.some.injEq] at hk
      subst hk
      exact ⟨e, labels[e.1], he, hl, by simp⟩
    | succ k =>
      simp only [List.getElem?_cons_succ] at hk
      obtain ⟨e2, label2, h1, h2, h3⟩ := ih3 k i hk
      exact ⟨e2, label2, h1, h2, by simpa using h3⟩

theorem range_five_getElem? (k i : Nat) : (List.range 5)[k]? = some i ↔ k < 5 ∧ i = k := by
  constructor
  · intro h
    obtain ⟨hk, hv⟩ := List.getElem?_eq_some.1 h
    simp only [List.length_range] at hk
    simp only [List.getElem_range] at hv
    exact ⟨hk, hv.symm⟩
  · rintro ⟨hk, rfl⟩
    exact List.getElem?_range hk

theorem printInference_topk_threw {α : Type} [LinearOrder α] [Mul α] [NatCast α]
    (S : StdSort) (prob : Nat → α) (labelFile : Option (List String))
    (h : ∃ r e, r < 5 ∧ (rankedResults S prob)[r]? = some e ∧
      (ReadImageNetLabels labelFile).length ≤ e.1) :
    (PrintInference S prob labelFile false).threw = true := by
  obtain ⟨r, e, hr, he, hle⟩ := h
  simp only [PrintInference, Bool.false_eq_true, if_false]
  exact printRows_threw _ _ _ ⟨r, e, List.mem_range.2 hr, he, hle⟩

theorem printInference_topk_ok {α : Type} [LinearOrder α] [Mul α] [NatCast α]
    (S : StdSort) (prob : Nat → α) (labelFile : Option (List String))
    (h : ∀ r e, r < 5 → (rankedResults S prob)[r]? = some e →
      e.1 < (ReadImageNetLabels labelFile).length) :
    ∃ rows : List (Printed α),
      PrintInference S prob labelFile false
        = { printed := Printed.header :: rows, threw := false } ∧
      rows.length = 5 ∧
      ∀ r, r < 5 → ∃ (e : Nat × α) (label : String), (rankedResults S prob)[r]? = some e ∧
        (ReadImageNetLabels labelFile)[e.1]? = some label ∧
        rows[r]? = some (Printed.row label (e.2 * ((100 : Nat) : α))) := by
  have hlen := rankedResults_length S prob
  have hall : ∀ i, i ∈ List.range 5 → ∃ e, (rankedResults S prob)[i]? = some e ∧
      e.1 < (ReadImageNetLabels labelFile).length := by
    intro i hi
    have hi5 : i < 5 := List.mem_range.1 hi
    have hi' : i < (rankedResults S prob).length := by omega
    exact ⟨_, List.getElem?_eq_getElem hi', h i _ hi5 (List.getElem?_eq_getElem hi')⟩
  obtain ⟨h1, h2, h3⟩ := printRows_ok (rankedResults S prob) (ReadImageNetLabels labelFile)
    (List.range 5) hall
  refine ⟨(printRows (rankedResults S prob) (ReadImageNetLabels labelFile)
    (List.range 5)).printed, ?_, by simpa using h2, ?_⟩
  · simp only [PrintInference, Bool.false_eq_true, if_false, h1]
  · intro r hr
    exact h3 r r ((range_five_getElem? r r).2 ⟨hr, rfl⟩)

theorem printInference_hotdog {α : Type} [LinearOrder α] [Mul α] [NatCast α]
    (S : StdSort) (prob : Nat → α) (labelFile : Option (List String)) (top : Nat × α)
    (h : (rankedResults S prob)[0]? = some top) :
    PrintInference S prob labelFile true
      = { printed := [if top.1 = HOTDOG_INDEX then Printed.hotDog else Printed.notHotDog],
          threw := false } := by
  simp only [PrintInference, if_true, h]
  by_cases hidx : top.1 = HOTDOG_INDEX
  · simp [hidx]
  · simp [hidx]

theorem spike_unique_max {α : Type} [LinearOrder α] (lo hi : α) (h : lo < hi) (m : Nat) :
    ∀ i, i < 1000 → i ≠ m →
      (fun k : Nat => if k = m then hi else lo) i < (fun k : Nat => if k = m then hi else lo) m := by
  intro i _ hne
  simp [hne, h]

/-! ## Inference runner: lemmas -/

theorem wrapInt_modEq (x : Int) : wrapInt x ≡ x [ZMOD 2 ^ 32] := by
  unfold wrapInt
  have h : (x + 2 ^ 31) % 2 ^ 32 ≡ x + 2 ^ 31 [ZMOD 2 ^ 32] := Int.mod_modEq _ _
  have := h.sub_right (2 ^ 31)
  simpa using this

theorem wrapInt_range (x : Int) : -2 ^ 31 ≤ wrapInt x ∧ wrapInt x < 2 ^ 31 := by
  unfold wrapInt
  omega

theorem wrapInt_product (b d0 d1 d2 : Int) (h0 : 0 ≤ b * d0 * d1 * d2)
    (h1 : b * d0 * d1 * d2 < 2 ^ 31) :
    wrapInt (wrapInt (wrapInt (b * d0) * d1) * d2) = b * d0 * d1 * d2 := by
  have e1 : wrapInt (wrapInt (wrapInt (b * d0) * d1) * d2) ≡ b * d0 * d1 * d2 [ZMOD 2 ^ 32] :=
    (wrapInt_modEq _).trans
      ((((wrapInt_modEq _).trans ((wrapInt_modEq _).mul_right d1))).mul_right d2)
  have hr := wrapInt_range (wrapInt (wrapInt (b * d0) * d1) * d2)
  obtain ⟨k, hk⟩ := (Int.modEq_iff_dvd.1 e1)
  generalize wrapInt (wrapInt (wrapInt (b * d0) * d1) * d2) = w at *
  generalize b * d0 * d1 * d2 = P at *
  omega

theorem bindingBytes_eq (b : Int) (dims : Dims3) (h0 : 0 ≤ b * dims.d0 * dims.d1 * dims.d2)
    (h1 : b * dims.d0 * dims.d1 * dims.d2 < 2 ^ 31) :
    (bindingBytes b dims : Int) = b * dims.d0 * dims.d1 * dims.d2 * 4 := by
  unfold bindingBytes
  rw [wrapInt_product b dims.d0 dims.d1 dims.d2 h0 h1]
  generalize b * dims.d0 * dims.d1 * dims.d2 = P at *
  unfold toSizeT sizeofFloat
  have hP : P % 2 ^ 64 = P := Int.emod_eq_of_lt h0 (by omega)
  rw [hP]
  have : (P.toNat : Int) = P := Int.toNat_of_nonneg h0
  omega

theorem storePixel_some (input : Array UInt8) (c P i : Nat) (data : Array Nat)
    (hr : i * INPUT_C + 2 - c < input.size) (hw : c * P + i < data.size) :
    ∃ data', storePixel input c P i data = some data' ∧ data'.size = data.size ∧
      data'[c * P + i]? = (input[i * INPUT_C + 2 - c]?).map UInt8.toNat ∧
      ∀ k, k ≠ c * P + i → data'[k]? = data[k]? := by
  refine ⟨data.set ⟨c * P + i, hw⟩ (input[i * INPUT_C + 2 - c]).toNat, ?_, ?_, ?_, ?_⟩
  · unfold storePixel
    rw [dif_pos ⟨hr, hw⟩]
  · simp
  · rw [Array.getElem?_set_eq]
    simp [Array.getElem?_eq_getElem hr]
  · intro k hk
    exact Array.getElem?_set_ne data ⟨c * P + i, hw⟩ _ (fun e => hk e.symm)

theorem pixelLoop_spec (input : Array UInt8) (c P : Nat) (hc : c < 3)
    (hin : input.size = P * 3) (n : Nat) (hn : n ≤ P) (data : Array Nat)
    (hd : data.size = P * 3) :
    ∃ data', (List.range n).foldlM (fun data i => storePixel input c P i data) data
        = some data' ∧
      data'.size = P * 3 ∧
      (∀ i, i < n → data'[c * P + i]? = (input[i * 3 + (2 - c)]?).map UInt8.toNat) ∧
      (∀ k, (k < c * P ∨ c * P + n ≤ k) → data'[k]? = data[k]?) := by
  have hcP : c * P + P ≤ P * 3 := by
    have : c * P ≤ 2 * P := Nat.mul_le_mul_right P (by omega)
    omega
  induction n with
  | zero =>
    refine ⟨data, rfl, hd, ?_, ?_⟩
    · intro i hi; omega
    · intro k _; rfl
  | succ n ih =>
    obtain ⟨d1, h1, hs1, hv1, hk1⟩ := ih (by omega)
    have hr : n * INPUT_C + 2 - c < input.size := by
      rw [hin]; unfold INPUT_C; omega
    have hw : c * P + n < d1.size := by
      rw [hs1]; omega
    obtain ⟨d2, h2, hs2, hv2, hk2⟩ := storePixel_some input c P n d1 hr hw
    refine ⟨d2, ?_, by rw [hs2, hs1], ?_, ?_⟩
    · rw [List.range_succ, List.foldlM_append, h1]
      simpa using h2
    · intro i hi
      by_cases hin' : i = n
      · subst hin'
        rw [hv2]
        congr 2
        unfold INPUT_C
        omega
      · rw [hk2 _ (by omega)]
        exact hv1 i (by omega)
    · intro k hk
      rw [hk2 k (by omega)]
      exact hk1 k (by omega)

theorem preprocessLoops_spec (input : Array UInt8) (data : Array Nat)
    (hin : input.size = INPUT_H * INPUT_W * 3) (hd : data.size = INPUT_H * INPUT_W * 3) :
    ∃ out, preprocessLoops input data = some out ∧ out.size = INPUT_H * INPUT_W * 3 ∧
      ∀ c p, c < 3 → p < INPUT_H * INPUT_W →
        out[c * (INPUT_H * INPUT_W) + p]? = (input[p * 3 + (2 - c)]?).map UInt8.toNat := by
  generalize hP : INPUT_H * INPUT_W = P at *
  obtain ⟨d0, h0, hs0, hv0, _⟩ := pixelLoop_spec input 0 P (by omega) hin P le_rfl data hd
  obtain ⟨d1, h1, hs1, hv1, hk1⟩ := pixelLoop_spec input 1 P (by omega) hin P le_rfl d0 hs0
  obtain ⟨d2, h2, hs2, hv2, hk2⟩ := pixelLoop_spec input 2 P (by omega) hin P le_rfl d1 hs1
  refine ⟨d2, ?_, hs2, ?_⟩
  · unfold preprocessLoops
    have hr : List.range INPUT_C = [0, 1, 2] := by decide
    rw [hr]
    simp only [List.foldlM_cons, List.foldlM_nil, hP]
    rw [h0]
    simp only [Option.bind_eq_bind, Option.some_bind]
    rw [h1]
    simp only [Option.some_bind]
    rw [h2]
    rfl
  · intro c p hc hp
    have hc3 : c = 0 ∨ c = 1 ∨ c = 2 := by omega
    rcases hc3 with rfl | rfl | rfl
    · rw [hk2 _ (Or.inl (by omega)), hk1 _ (Or.inl (by omega))]
      exact hv0 p hp
    · rw [hk2 _ (Or.inl (by omega))]
      exact hv1 p hp
    · exact hv2 p hp

theorem preprocess_some (input : Array UInt8) (garbage : Nat)
    (hin : input.size = INPUT_H * INPUT_W * INPUT_C) :
    ∃ data, preprocess input garbage = some data := by
  obtain ⟨out, h, _⟩ := preprocessLoops_spec input
    (Array.mkArray (INPUT_H * INPUT_W * INPUT_C) garbage) hin (by simp [INPUT_C])
  exact ⟨out, h⟩

theorem inferAndProfile_reported {α : Type} [LinearOrder α] [Mul α] [NatCast α]
    (S : StdSort) (cuda : Cuda α) (engine : ICudaEngine) (batchSize : Int)
    (input : Array UInt8) (labelFile : Option (List String)) (hotdogMode : Bool)
    (hb : engine.nbBindings = 2) (hmi : cuda.mallocInput = 0) (hmo : cuda.mallocOutput = 0)
    (hin : input.size = INPUT_H * INPUT_W * INPUT_C)
    (hto : cuda.memcpyToDevice = 0) (hfrom : cuda.memcpyToHost = 0) :
    (InferAndProfile S cuda engine batchSize input labelFile hotdogMode).ranked
        = rankedResults S cuda.deviceOutput
    ∧ (InferAndProfile S cuda engine batchSize input labelFile hotdogMode).copiedBack
        = OUTPUT_SIZE * sizeofFloat / sizeofFloat
    ∧ ((PrintInference S cuda.deviceOutput labelFile hotdogMode).threw = true →
        (InferAndProfile S cuda engine batchSize input labelFile hotdogMode).exit = Exit.threw
        ∧ (InferAndProfile S cuda engine batchSize input labelFile hotdogMode).held
            = { context := true, inputBuffer := true, outputBuffer := true })
    ∧ ((PrintInference S cuda.deviceOutput labelFile hotdogMode).threw = false →
        cuda.freeInput = 0 → cuda.freeOutput = 0 →
        (InferAndProfile S cuda engine batchSize input labelFile hotdogMode).exit = Exit.returned
        ∧ (InferAndProfile S cuda engine batchSize input labelFile hotdogMode).held
            = { context := false, inputBuffer := false, outputBuffer := false }) := by
  obtain ⟨d, hd⟩ := preprocess_some input 0 hin
  have e1 : ¬ engine.nbBindings ≠ 2 := not_not.2 hb
  have e2 : ¬ cuda.mallocInput ≠ 0 := not_not.2 hmi
  have e3 : ¬ cuda.mallocOutput ≠ 0 := not_not.2 hmo
  have e4 : ¬ cuda.memcpyToDevice ≠ 0 := not_not.2 hto
  have e5 : ¬ cuda.memcpyToHost ≠ 0 := not_not.2 hfrom
  unfold InferAndProfile
  dsimp only
  rw [if_neg e1, if_neg e2, if_neg e3, hd]
  dsimp only
  rw [if_neg e4, if_neg e5]
  refine ⟨?_, ?_, ?_, ?_⟩
  · split_ifs <;> rfl
  · split_ifs <;> rfl
  · intro ht
    rw [if_pos ht]
    exact ⟨rfl, rfl⟩
  · intro ht hfi hfo
    have t1 : ¬ (PrintInference S cuda.deviceOutput labelFile hotdogMode).threw = true := by
      rw [ht]
      exact Bool.false_ne_true
    rw [if_neg t1, if_neg (not_not.2 hfi), if_neg (not_not.2 hfo)]
    exact ⟨rfl, rfl⟩

theorem zeroImage_size : zeroImage.size = INPUT_H * INPUT_W * INPUT_C :=
  Array.size_mkArray _ _

theorem printInference_topk_no_labels_threw {α : Type} [LinearOrder α] [Mul α] [NatCast α]
    (S : StdSort) (prob : Nat → α) : (PrintInference S prob none false).threw = true := by
  obtain ⟨top, htop, _⟩ := rankedResults_head S prob
  exact printInference_topk_threw S prob none ⟨0, top, by decide, htop, Nat.zero_le _⟩

/-! ## Claims -/

/-- C2: starting from an empty table, any finite sequence of
`reportLayerTime` calls leaves `mProfile` equal to the reference table (the
distinct names in order of first occurrence, each with the sum of the values
recorded under it); no name appears twice in it; one name recorded with
`v1..vk` has the single entry `(name, v1 + ... + vk)`, the empty name
included. -/
theorem C2_reportLayerTime_aggregates {α : Type} [AddMonoid α]
    (calls : List (String × α)) :
    reportAll [] calls = referenceTable calls
    ∧ ((reportAll [] calls).map Prod.fst).Nodup
    ∧ (∀ (name : String) (v : α) (vs : List α),
        reportAll [] ((v :: vs).map (fun x => (name, x))) = [(name, (v :: vs).sum)])
    ∧ (∀ (v : α) (vs : List α),
        reportAll [] ((v :: vs).map (fun x => ("", x))) = [("", (v :: vs).sum)]) := by
  have main : ∀ cs : List (String × α), reportAll [] cs = referenceTable cs := by
    intro cs
    have h := reportAll_referenceTable ([] : List (String × α)) cs
    simpa [referenceTable, firstSeen] using h
  have single : ∀ (name : String) (v : α) (vs : List α),
      reportAll [] ((v :: vs).map (fun x => (name, x))) = [(name, (v :: vs).sum)] := by
    intro name v vs
    rw [main]
    have hnames : ∀ (a : α) (l : List α),
        firstSeen (((a :: l).map (fun x => (name, x))).map Prod.fst) = [name] := by
      intro a l
      induction l generalizing a with
      | nil => simp [firstSeen]
      | cons b l ih =>
        have hb := ih b
        rw [List.map_cons, List.map_cons, firstSeen, hb]
        simp
    have htot : ∀ l : List α, totalOf (l.map (fun x => (name, x))) name = l.sum := by
      intro l
      unfold totalOf
      have : (l.map (fun x => (name, x))).filter (fun c => c.1 == name)
          = l.map (fun x => (name, x)) := by
        rw [List.filter_eq_self]
        intro c hc
        rcases List.mem_map.1 hc with ⟨x, _, rfl⟩
        simp
      rw [this, List.map_map]
      simp [Function.comp_def]
    unfold referenceTable
    rw [hnames, List.map_singleton, htot]
  refine ⟨main calls, ?_, single, fun v vs => single "" v vs⟩
  rw [main]
  unfold referenceTable
  rw [List.map_map]
  have : (Prod.fst ∘ fun n => (n, totalOf calls n)) = id := by
    funext n
    rfl
  rw [this, List.map_id]
  exact firstSeen_nodup _

/-- C3 (as amended): `printLayerTimes` prints one line per entry, in table
order, whose value is the entry's accumulated total divided by
`TIMING_ITERATIONS`, and then the accumulated totals added up in table order
from `0` and divided by `TIMING_ITERATIONS`, in whatever arithmetic the
values have; the execute loop of `InferAndProfile` runs `execute` exactly
`TIMING_ITERATIONS` times (so a call counter ends at that same count). In
exact arithmetic (a division ring) the closing total is the sum of the
printed per-layer values. -/
theorem C3_printLayerTimes_averages {α : Type} [Zero α] [Add α] [Div α] [NatCast α]
    (mProfile : List (Record α)) :
    (printLayerTimes mProfile).lines
        = mProfile.map (fun r => (r.1, r.2 / (TIMING_ITERATIONS : α)))
    ∧ (printLayerTimes mProfile).total
        = mProfile.foldl (fun totalTime r => totalTime + r.2) 0 / (TIMING_ITERATIONS : α)
    ∧ (∀ (σ : Type) (execute : σ → σ) (s : σ),
        runExecuteLoop execute s = execute^[TIMING_ITERATIONS] s)
    ∧ runExecuteLoop (fun calls : Nat => calls + 1) 0 = TIMING_ITERATIONS
    ∧ (∀ (β : Type) [DivisionRing β] (exact : List (Record β)),
        (printLayerTimes exact).total
          = ((printLayerTimes exact).lines.map Prod.snd).sum) := by
  have hlines : ∀ (γ : Type) [Zero γ] [Add γ] [Div γ] [NatCast γ] (p : List (Record γ)),
      (printLayerTimes p).lines = p.map (fun r => (r.1, r.2 / (TIMING_ITERATIONS : γ))) := by
    intro γ _ _ _ _ p
    simp [printLayerTimes, printLayerTimes_loop]
  have htotal : ∀ (γ : Type) [Zero γ] [Add γ] [Div γ] [NatCast γ] (p : List (Record γ)),
      (printLayerTimes p).total
        = p.foldl (fun totalTime r => totalTime + r.2) 0 / (TIMING_ITERATIONS : γ) := by
    intro γ _ _ _ _ p
    simp [printLayerTimes, printLayerTimes_loop]
  have hiter : ∀ (σ : Type) (execute : σ → σ) (s : σ),
      runExecuteLoop execute s = execute^[TIMING_ITERATIONS] s := by
    intro σ execute s
    exact executeLoop_eq_iterate execute (TIMING_ITERATIONS + 1) 0 s (by omega)
  refine ⟨hlines α mProfile, htotal α mProfile, hiter, ?_, ?_⟩
  · rw [hiter]
    have : ∀ k n : Nat, (fun calls : Nat => calls + 1)^[k] n = n + k := by
      intro k
      induction k with
      | zero => intro n; rfl
      | succ k ih => intro n; rw [Function.iterate_succ_apply, ih]; omega
    rw [this, zero_add]
  · intro β _ exact
    rw [hlines β exact, htotal β exact, foldl_add_eq_sum, zero_add]
    exact sum_div_timing_iterations exact

/-- C3 (as stated) fails in the arithmetic of the code: for a table with the
totals `1.0f` and `4.0f` the printed per-layer values are `0x1.0624dep-10`
and `0x1.0624dep-8`, the closing total is `0x1.47ae14p-8`, and the sum of
the two printed values is `0x1.47ae16p-8` as a `float` sum and differs from
the closing total as an exact sum too. -/
theorem C3_total_differs_from_sum_of_averages :
    (printLayerTimes twoLayerProfile).lines.map Prod.snd
        = [{ m := 8589935, e := -33 }, { m := 8589935, e := -31 }]
    ∧ (printLayerTimes twoLayerProfile).total = { m := 10737418, e := -31 }
    ∧ ((printLayerTimes twoLayerProfile).lines.map Prod.snd).sum
        = { m := 10737419, e := -31 }
    ∧ (printLayerTimes twoLayerProfile).total
        ≠ ((printLayerTimes twoLayerProfile).lines.map Prod.snd).sum
    ∧ (printLayerTimes twoLayerProfile).total.toRat
        ≠ (((printLayerTimes twoLayerProfile).lines.map Prod.snd).map Binary32.toRat).sum := by
  have hlines : (printLayerTimes twoLayerProfile).lines.map Prod.snd
      = [{ m := 8589935, e := -33 }, { m := 8589935, e := -31 }] := by decide
  have htotal : (printLayerTimes twoLayerProfile).total = { m := 10737418, e := -31 } := by
    decide
  have hsum : ((printLayerTimes twoLayerProfile).lines.map Prod.snd).sum
      = { m := 10737419, e := -31 } := by
    rw [hlines]
    decide
  refine ⟨hlines, htotal, hsum, ?_, ?_⟩
  · rw [htotal, hsum]
    decide
  · rw [htotal, hlines]
    norm_num [Binary32.toRat]

/-- C8: top-k mode of `PrintInference` raises whenever one of the five
top-ranked entries has a class index that is not a position of the label
table, and when all five are positions of the label table it raises nothing
and prints, after the heading, exactly five rows, row `r` being
`(labels[index_r], prob_r * 100)` for the `r`-th ranked entry. Reading the
label file itself never fails: its lines are the table, a missing file is the
empty table. -/
theorem C8_topk_label_bounds {α : Type} [LinearOrder α] [Mul α] [NatCast α] (S : StdSort)
    (prob : Nat → α) (labelFile : Option (List String)) :
    ((∃ r e, r < 5 ∧ (rankedResults S prob)[r]? = some e ∧
        (ReadImageNetLabels labelFile).length ≤ e.1) →
      (PrintInference S prob labelFile false).threw = true)
    ∧ ((∀ r e, r < 5 → (rankedResults S prob)[r]? = some e →
        e.1 < (ReadImageNetLabels labelFile).length) →
      ∃ rows : List (Printed α),
        PrintInference S prob labelFile false
          = { printed := Printed.header :: rows, threw := false } ∧
        rows.length = 5 ∧
        ∀ r, r < 5 → ∃ (e : Nat × α) (label : String), (rankedResults S prob)[r]? = some e ∧
          (ReadImageNetLabels labelFile)[e.1]? = some label ∧
          rows[r]? = some (Printed.row label (e.2 * ((100 : Nat) : α))))
    ∧ (∀ fileLines, ReadImageNetLabels (some fileLines) = fileLines)
    ∧ ReadImageNetLabels none = [] := by
  exact ⟨printInference_topk_threw S prob labelFile, printInference_topk_ok S prob labelFile,
    readImageNetLabels_some, rfl⟩

/-- Witness of C8 on the all-zero vector ranked by `backSort`: with no label
file the first ranked index is outside the (empty) table and top-k mode
raises; with a table of 1000 labels it prints the heading and five rows. -/
theorem C8_topk_label_bounds_witness :
    (PrintInference backSort (fun _ : Nat => (0 : ℚ)) none false).threw = true
    ∧ ∃ rows : List (Printed ℚ),
        PrintInference backSort (fun _ : Nat => (0 : ℚ)) (some (List.replicate 1000 "label")) false
          = { printed := Printed.header :: rows, threw := false } ∧
        rows.length = 5 ∧
        ∀ r, r < 5 → ∃ (e : Nat × ℚ) (label : String),
          (rankedResults backSort (fun _ : Nat => (0 : ℚ)))[r]? = some e ∧
          (ReadImageNetLabels (some (List.replicate 1000 "label")))[e.1]? = some label ∧
          rows[r]? = some (Printed.row label (e.2 * ((100 : Nat) : ℚ))) :=
  ⟨(C8_topk_label_bounds backSort (fun _ : Nat => (0 : ℚ)) none).1
      ⟨0, (999, 0), by decide, rankedResults_backSort_const_getElem? 0 0 (by decide),
        by simp [ReadImageNetLabels]⟩,
    (C8_topk_label_bounds backSort (fun _ : Nat => (0 : ℚ))
      (some (List.replicate 1000 "label"))).2.1 (by
        intro r e _ he
        have hmem : e ∈ rankedResults backSort (fun _ : Nat => (0 : ℚ)) :=
          List.mem_iff_getElem?.2 ⟨r, he⟩
        rw [readImageNetLabels_some, List.length_replicate]
        exact ((mem_rankedResults _ _ e).1 hmem).1)⟩

/-- C4 (as amended): for class indices `i`, `j` below 1000 the ranked list
places the entry of `i` before the entry of `j` whenever `prob[i]` is
strictly greater than `prob[j]`; when the two probabilities are equal both
entries are in the list, one before the other, in the order `std::sort`
happened to leave them. -/
theorem C4_ranked_before_of_greater {α : Type} [LinearOrder α] (S : StdSort)
    (prob : Nat → α) (i j : Nat) (hi : i < 1000) (hj : j < 1000) :
    (prob j < prob i → Before (i, prob i) (j, prob j) (rankedResults S prob))
    ∧ (i ≠ j → prob i = prob j →
        Before (i, prob i) (j, prob j) (rankedResults S prob) ∨
        Before (j, prob j) (i, prob i) (rankedResults S prob)) := by
  refine ⟨rankedResults_before_of_gt S prob i j hi hj, ?_⟩
  intro hne _
  apply before_or_before
  · intro e
    exact hne (congrArg Prod.fst e)
  · exact (mem_rankedResults S prob _).2 ⟨hi, rfl⟩
  · exact (mem_rankedResults S prob _).2 ⟨hj, rfl⟩

/-- Witness of C4 (as amended): in the vector that is 1 at class 0 and 0
elsewhere, class 0 is ranked before class 1. -/
theorem C4_ranked_before_of_greater_witness :
    Before ((0 : Nat), (1 : ℚ)) ((1 : Nat), (0 : ℚ))
      (rankedResults backSort (fun k : Nat => if k = 0 then (1 : ℚ) else 0)) :=
  (C4_ranked_before_of_greater backSort (fun k : Nat => if k = 0 then (1 : ℚ) else 0) 0 1
    (by decide) (by decide)).1 (by norm_num)

/-- C4 (as stated) fails: `backSort` meets the guarantee of `std::sort`, and
on the all-zero vector it ranks class 1 before class 0 although `0 < 1` and
the two probabilities are equal. -/
theorem C4_ties_not_kept_in_index_order :
    (0 : Nat) < 1
    ∧ (fun _ : Nat => (0 : ℚ)) 0 = (fun _ : Nat => (0 : ℚ)) 1
    ∧ ¬ Before ((0 : Nat), (0 : ℚ)) ((1 : Nat), (0 : ℚ))
        (rankedResults backSort (fun _ : Nat => (0 : ℚ)))
    ∧ Before ((1 : Nat), (0 : ℚ)) ((0 : Nat), (0 : ℚ))
        (rankedResults backSort (fun _ : Nat => (0 : ℚ))) := by
  refine ⟨by decide, rfl, ?_, ?_⟩
  · rintro ⟨p, q, hpq, hp, hq⟩
    have hlen := rankedResults_length backSort (fun _ : Nat => (0 : ℚ))
    have hp' : p < 1000 := hlen ▸ (List.getElem?_eq_some.1 hp).1
    have hq' : q < 1000 := hlen ▸ (List.getElem?_eq_some.1 hq).1
    rw [rankedResults_backSort_const_getElem? 0 p hp'] at hp
    rw [rankedResults_backSort_const_getElem? 0 q hq'] at hq
    have h1 : 999 - p = 0 := congrArg Prod.fst (Option.some.inj hp)
    have h2 : 999 - q = 1 := congrArg Prod.fst (Option.some.inj hq)
    omega
  · exact ⟨998, 999, by decide, rankedResults_backSort_const_getElem? 0 998 (by decide),
      rankedResults_backSort_const_getElem? 0 999 (by decide)⟩

/-- C5: in hotdog mode, a vector whose maximum is attained at the single
index `m` gives `HOT DOT` exactly when `m = HOTDOG_INDEX`; the vector with
its only large value at index 0 gives `NOT HOT DOT`, the one with it at index
934 gives `HOT DOT`; for every vector the answer is read off the first
ranked entry alone, whatever the label file holds, and nothing is raised. -/
theorem C5_hotdog_decision {α : Type} [LinearOrder α] [Mul α] [NatCast α] (S : StdSort) :
    (∀ (prob : Nat → α) (labelFile : Option (List String)) (m : Nat), m < 1000 →
        (∀ i, i < 1000 → i ≠ m → prob i < prob m) →
        PrintInference S prob labelFile true
          = { printed := [if m = HOTDOG_INDEX then Printed.hotDog else Printed.notHotDog],
              threw := false })
    ∧ (∀ (lo hi : α) (labelFile : Option (List String)), lo < hi →
        PrintInference S (fun k : Nat => if k = 0 then hi else lo) labelFile true
          = { printed := [Printed.notHotDog], threw := false })
    ∧ (∀ (lo hi : α) (labelFile : Option (List String)), lo < hi →
        PrintInference S (fun k : Nat => if k = 934 then hi else lo) labelFile true
          = { printed := [Printed.hotDog], threw := false })
    ∧ (∀ (prob : Nat → α) (labelFile : Option (List String)),
        ∃ top : Nat × α, (rankedResults S prob)[0]? = some top ∧
          PrintInference S prob labelFile true
            = { printed := [if top.1 = HOTDOG_INDEX then Printed.hotDog
                            else Printed.notHotDog],
                threw := false })
    ∧ HOTDOG_INDEX = 934 := by
  have main : ∀ (prob : Nat → α) (labelFile : Option (List String)) (m : Nat), m < 1000 →
      (∀ i, i < 1000 → i ≠ m → prob i < prob m) →
      PrintInference S prob labelFile true
        = { printed := [if m = HOTDOG_INDEX then Printed.hotDog else Printed.notHotDog],
            threw := false } := by
    intro prob labelFile m hm hmax
    exact printInference_hotdog S prob labelFile (m, prob m)
      (rankedResults_head_of_unique_max S prob m hm hmax)
  refine ⟨main, ?_, ?_, ?_, rfl⟩
  · intro lo hi labelFile h
    have := main (fun k : Nat => if k = 0 then hi else lo) labelFile 0 (by decide)
      (spike_unique_max lo hi h 0)
    simpa [HOTDOG_INDEX] using this
  · intro lo hi labelFile h
    have := main (fun k : Nat => if k = 934 then hi else lo) labelFile 934 (by decide)
      (spike_unique_max lo hi h 934)
    simpa [HOTDOG_INDEX] using this
  · intro prob labelFile
    obtain ⟨top, htop, _⟩ := rankedResults_head S prob
    exact ⟨top, htop, printInference_hotdog S prob labelFile top htop⟩

/-- Witness of C5 with `backSort`: the vector `[1, 0, ..., 0]` gives
`NOT HOT DOT` and the vector that is 1 at index 934 only gives `HOT DOT`. -/
theorem C5_hotdog_decision_witness :
    PrintInference backSort (fun k : Nat => if k = 0 then (1 : ℚ) else 0) none true
      = { printed := [Printed.notHotDog], threw := false }
    ∧ PrintInference backSort (fun k : Nat => if k = 934 then (1 : ℚ) else 0) none true
      = { printed := [Printed.hotDog], threw := false } :=
  ⟨(C5_hotdog_decision backSort).2.1 0 1 none (by norm_num),
    (C5_hotdog_decision backSort).2.2.1 0 1 none (by norm_num)⟩

/-- C10: after sorting, `results` is a permutation of the pairs
`(i, prob[i])`, `i = 0..999`, and its probabilities never increase from front
to back; so the first entry carries a maximum probability, each of the first
five entries carries a probability at least as large as every later entry,
the rows printed in top-k mode are those first five entries, and for a vector
with its only large value at index 0 the first entry is class 0. -/
theorem C10_ranked_sorted_permutation {α : Type} [LinearOrder α] [Mul α] [NatCast α]
    (S : StdSort) (prob : Nat → α) :
    (rankedResults S prob).Perm ((List.range 1000).map (fun i => (i, prob i)))
    ∧ (rankedResults S prob).Pairwise (fun a b => a.2 ≥ b.2)
    ∧ (∃ top : Nat × α, (rankedResults S prob)[0]? = some top ∧
        ∀ i, i < 1000 → prob i ≤ top.2)
    ∧ (∀ (p q : Nat) (a b : Nat × α), p < 5 → 5 ≤ q →
        (rankedResults S prob)[p]? = some a → (rankedResults S prob)[q]? = some b →
        b.2 ≤ a.2)
    ∧ (∀ (labelFile : Option (List String)),
        (PrintInference S prob labelFile false).threw = false →
        ∀ r, r < 5 → ∃ (e : Nat × α) (label : String),
          (rankedResults S prob)[r]? = some e ∧
          (PrintInference S prob labelFile false).printed[r + 1]?
            = some (Printed.row label (e.2 * ((100 : Nat) : α))))
    ∧ (∀ (lo hi : α), lo < hi →
        (rankedResults S (fun k : Nat => if k = 0 then hi else lo))[0]? = some (0, hi)) := by
  refine ⟨?_, rankedResults_sorted S prob, ?_, ?_, ?_, ?_⟩
  · have h := rankedResults_perm S prob
    rwa [pushResults_eq_map] at h
  · obtain ⟨top, htop, _, _, hge⟩ := rankedResults_head S prob
    exact ⟨top, htop, hge⟩
  · intro p q a b hp hq ha hb
    exact rankedResults_getElem?_le S prob p q a b (by omega) ha hb
  · intro labelFile hno r hr
    by_cases hall : ∀ r e, r < 5 → (rankedResults S prob)[r]? = some e →
        e.1 < (ReadImageNetLabels labelFile).length
    · obtain ⟨rows, hrows, _, hrow⟩ := printInference_topk_ok S prob labelFile hall
      obtain ⟨e, label, he, _, hr'⟩ := hrow r hr
      refine ⟨e, label, he, ?_⟩
      rw [hrows]
      simpa using hr'
    · exfalso
      have hex : ∃ r e, r < 5 ∧ (rankedResults S prob)[r]? = some e ∧
          (ReadImageNetLabels labelFile).length ≤ e.1 := by
        by_contra hcon
        apply hall
        intro r e hr he
        by_contra hlt
        exact hcon ⟨r, e, hr, he, by omega⟩
      rw [printInference_topk_threw S prob labelFile hex] at hno
      exact Bool.noConfusion hno
  · intro lo hi h
    have := rankedResults_head_of_unique_max S (fun k : Nat => if k = 0 then hi else lo) 0
      (by decide) (spike_unique_max lo hi h 0)
    simpa using this

/-- Witness of C10 with `backSort` on the vector `[1, 0, ..., 0]`: the first
ranked entry is class 0 with probability 1, and with a table of 1000 labels
the first printed row shows it with `1 * 100`. -/
theorem C10_ranked_sorted_permutation_witness :
    (rankedResults backSort (fun k : Nat => if k = 0 then (1 : ℚ) else 0))[0]? = some (0, 1)
    ∧ ∃ (e : Nat × ℚ) (label : String),
        (rankedResults backSort (fun k : Nat => if k = 0 then (1 : ℚ) else 0))[0]? = some e ∧
        (PrintInference backSort (fun k : Nat => if k = 0 then (1 : ℚ) else 0)
          (some (List.replicate 1000 "label")) false).printed[0 + 1]?
          = some (Printed.row label (e.2 * ((100 : Nat) : ℚ))) :=
  ⟨(C10_ranked_sorted_permutation backSort
      (fun k : Nat => if k = 0 then (1 : ℚ) else 0)).2.2.2.2.2 0 1 (by norm_num),
    (C10_ranked_sorted_permutation backSort
      (fun k : Nat => if k = 0 then (1 : ℚ) else 0)).2.2.2.2.1
      (some (List.replicate 1000 "label"))
      (by
        obtain ⟨rows, hrows, _⟩ := printInference_topk_ok backSort
          (fun k : Nat => if k = 0 then (1 : ℚ) else 0) (some (List.replicate 1000 "label"))
          (by
            intro r e _ he
            have hmem : e ∈ rankedResults backSort
                (fun k : Nat => if k = 0 then (1 : ℚ) else 0) :=
              List.mem_iff_getElem?.2 ⟨r, he⟩
            rw [readImageNetLabels_some, List.length_replicate]
            exact ((mem_rankedResults _ _ e).1 hmem).1)
        rw [hrows])
      0 (by decide)⟩

/-- C1: for an interleaved pixel buffer of `INPUT_H * INPUT_W * 3` bytes
(`INPUT_H = INPUT_W = 227`) the preprocessing loops run without an access
outside a buffer and leave a planar buffer `data` of the same length with
`data[c*H*W + p]` equal to the numeric value of `input[p*3 + (2 - c)]` for
every pixel `p` and channel `c`; both indices are inside their buffers. -/
theorem C1_preprocess_planar_reversed (input : Array UInt8) (garbage : Nat)
    (hin : input.size = INPUT_H * INPUT_W * INPUT_C) :
    INPUT_H = 227 ∧ INPUT_W = 227 ∧ INPUT_C = 3 ∧
    ∃ data : Array Nat, preprocess input garbage = some data ∧
      data.size = INPUT_H * INPUT_W * INPUT_C ∧
      ∀ (c p : Nat), c < INPUT_C → p < INPUT_H * INPUT_W →
        ∃ (hr : p * 3 + (2 - c) < input.size) (hw : c * (INPUT_H * INPUT_W) + p < data.size),
          data[c * (INPUT_H * INPUT_W) + p] = (input[p * 3 + (2 - c)]).toNat := by
  refine ⟨rfl, rfl, rfl, ?_⟩
  obtain ⟨out, h, hs, hv⟩ := preprocessLoops_spec input
    (Array.mkArray (INPUT_H * INPUT_W * INPUT_C) garbage) hin (by simp [INPUT_C])
  refine ⟨out, h, hs, ?_⟩
  intro c p hc hp
  have hc3 : c < 3 := hc
  have hcP : c * (INPUT_H * INPUT_W) ≤ 2 * (INPUT_H * INPUT_W) :=
    Nat.mul_le_mul_right _ (by omega)
  have hr : p * 3 + (2 - c) < input.size := by
    rw [hin]; unfold INPUT_C; omega
  have hw : c * (INPUT_H * INPUT_W) + p < out.size := by
    rw [hs]; omega
  refine ⟨hr, hw, ?_⟩
  have := hv c p hc3 hp
  rw [Array.getElem?_eq_getElem hw, Array.getElem?_eq_getElem hr] at this
  simpa using this

/-- Witness of C1 on the image whose bytes are all 7. -/
theorem C1_preprocess_planar_reversed_witness :
    INPUT_H = 227 ∧ INPUT_W = 227 ∧ INPUT_C = 3 ∧
    ∃ data : Array Nat,
      preprocess (Array.mkArray (INPUT_H * INPUT_W * INPUT_C) (7 : UInt8)) 0 = some data ∧
      data.size = INPUT_H * INPUT_W * INPUT_C ∧
      ∀ (c p : Nat), c < INPUT_C → p < INPUT_H * INPUT_W →
        ∃ (hr : p * 3 + (2 - c)
              < (Array.mkArray (INPUT_H * INPUT_W * INPUT_C) (7 : UInt8)).size)
          (hw : c * (INPUT_H * INPUT_W) + p < data.size),
          data[c * (INPUT_H * INPUT_W) + p]
            = ((Array.mkArray (INPUT_H * INPUT_W * INPUT_C) (7 : UInt8))[p * 3 + (2 - c)]).toNat :=
  C1_preprocess_planar_reversed (Array.mkArray (INPUT_H * INPUT_W * INPUT_C) (7 : UInt8)) 0
    (Array.size_mkArray _ _)

/-- C9: when the product `b * d0 * d1 * d2` of the batch size and the binding
dimensions is non-negative and fits a 32-bit `int`, the computed byte size is
`b * d0 * d1 * d2 * 4`; for shape (3, 227, 227) and batch 1 it is 618348 and
for shape (1000, 1, 1) and batch 1 it is 4000. -/
theorem C9_bindingBytes (b : Int) (dims : Dims3)
    (h0 : 0 ≤ b * dims.d0 * dims.d1 * dims.d2)
    (h1 : b * dims.d0 * dims.d1 * dims.d2 < 2 ^ 31) :
    (bindingBytes b dims : Int) = b * dims.d0 * dims.d1 * dims.d2 * 4
    ∧ bindingBytes 1 { d0 := 3, d1 := 227, d2 := 227 } = 618348
    ∧ bindingBytes 1 { d0 := 1000, d1 := 1, d2 := 1 } = 4000 :=
  ⟨bindingBytes_eq b dims h0 h1, by decide, by decide⟩

/-- Witness of C9 at batch 2 and shape (3, 227, 227). -/
theorem C9_bindingBytes_witness :
    (bindingBytes 2 { d0 := 3, d1 := 227, d2 := 227 } : Int) = 2 * 3 * 227 * 227 * 4
    ∧ bindingBytes 1 { d0 := 3, d1 := 227, d2 := 227 } = 618348
    ∧ bindingBytes 1 { d0 := 1000, d1 := 1, d2 := 1 } = 4000 :=
  C9_bindingBytes 2 { d0 := 3, d1 := 227, d2 := 227 } (by decide) (by decide)

/-- C6 (as amended): whenever `InferAndProfile` reaches the ranking step, the
number of floats copied back from the device and the number of pairs ranked
are both the constant 1000 (`OUTPUT_SIZE`, and the loop bound of
`PrintInference`), whatever the dimensions of the output binding; the count
equals the binding's element count exactly when that count is 1000. -/
theorem C6_ranked_count_is_constant {α : Type} [LinearOrder α] [Mul α] [NatCast α]
    (S : StdSort) (cuda : Cuda α) (engine : ICudaEngine) (batchSize : Int)
    (input : Array UInt8) (labelFile : Option (List String)) (hotdogMode : Bool)
    (hb : engine.nbBindings = 2) (hmi : cuda.mallocInput = 0) (hmo : cuda.mallocOutput = 0)
    (hin : input.size = INPUT_H * INPUT_W * INPUT_C)
    (hto : cuda.memcpyToDevice = 0) (hfrom : cuda.memcpyToHost = 0) :
    (InferAndProfile S cuda engine batchSize input labelFile hotdogMode).copiedBack = 1000
    ∧ (InferAndProfile S cuda engine batchSize input labelFile hotdogMode).ranked.length = 1000
    ∧ OUTPUT_SIZE = 1000
    ∧ (((InferAndProfile S cuda engine batchSize input labelFile hotdogMode).ranked.length : Int)
          = engine.outputElements ↔ engine.outputElements = 1000) := by
  obtain ⟨hr, hc, _, _⟩ := inferAndProfile_reported S cuda engine batchSize input labelFile
    hotdogMode hb hmi hmo hin hto hfrom
  have hlen : (InferAndProfile S cuda engine batchSize input labelFile hotdogMode).ranked.length
      = 1000 := by
    rw [hr]
    exact rankedResults_length S cuda.deviceOutput
  refine ⟨by rw [hc]; rfl, hlen, rfl, ?_⟩
  rw [hlen]
  constructor
  · intro h
    rw [← h]
    rfl
  · intro h
    rw [h]
    rfl

/-- Witness of C6 (as amended) on the AlexNet engine and the all-zero
image. -/
theorem C6_ranked_count_is_constant_witness :
    (InferAndProfile backSort okCuda alexnetEngine 1 zeroImage none true).copiedBack = 1000
    ∧ (InferAndProfile backSort okCuda alexnetEngine 1 zeroImage none true).ranked.length = 1000
    ∧ OUTPUT_SIZE = 1000
    ∧ (((InferAndProfile backSort okCuda alexnetEngine 1 zeroImage none true).ranked.length : Int)
          = alexnetEngine.outputElements ↔ alexnetEngine.outputElements = 1000) :=
  C6_ranked_count_is_constant backSort okCuda alexnetEngine 1 zeroImage none true
    rfl rfl rfl zeroImage_size rfl rfl

/-- C6 (as stated) fails: for an engine whose output binding has 1001
elements, 1000 floats are copied back and 1000 pairs are ranked, whichever
function stands for `std::sort`. -/
theorem C6_ranked_count_ignores_binding :
    wideEngine.outputElements = 1001
    ∧ ∀ S : StdSort,
      (InferAndProfile S okCuda wideEngine 1 zeroImage none true).copiedBack = 1000
      ∧ (InferAndProfile S okCuda wideEngine 1 zeroImage none true).ranked.length = 1000
      ∧ ((InferAndProfile S okCuda wideEngine 1 zeroImage none true).ranked.length : Int)
          ≠ wideEngine.outputElements := by
  have helts : wideEngine.outputElements = 1001 := by decide
  refine ⟨helts, ?_⟩
  intro S
  obtain ⟨hr, hc, _, _⟩ := inferAndProfile_reported S okCuda wideEngine 1 zeroImage none
    true rfl rfl rfl zeroImage_size rfl rfl
  have hlen : (InferAndProfile S okCuda wideEngine 1 zeroImage none true).ranked.length
      = 1000 := by
    rw [hr]
    exact rankedResults_length S okCuda.deviceOutput
  refine ⟨by rw [hc]; rfl, hlen, ?_⟩
  rw [hlen, helts]
  decide

/-- C7 (as amended): once the context and both device buffers are acquired
and the copies have succeeded, `InferAndProfile` destroys the context and
frees both buffers after the ranking step, on the path where
`PrintInference` returns and both `cudaFree` calls succeed; on the path where
`PrintInference` raises, the function is left by the exception with the
context and both buffers still held. -/
theorem C7_release_follows_ranking {α : Type} [LinearOrder α] [Mul α] [NatCast α]
    (S : StdSort) (cuda : Cuda α) (engine : ICudaEngine) (batchSize : Int)
    (input : Array UInt8) (labelFile : Option (List String)) (hotdogMode : Bool)
    (hb : engine.nbBindings = 2) (hmi : cuda.mallocInput = 0) (hmo : cuda.mallocOutput = 0)
    (hin : input.size = INPUT_H * INPUT_W * INPUT_C)
    (hto : cuda.memcpyToDevice = 0) (hfrom : cuda.memcpyToHost = 0) :
    ((PrintInference S cuda.deviceOutput labelFile hotdogMode).threw = false →
        cuda.freeInput = 0 → cuda.freeOutput = 0 →
        (InferAndProfile S cuda engine batchSize input labelFile hotdogMode).exit = Exit.returned
        ∧ (InferAndProfile S cuda engine batchSize input labelFile hotdogMode).held
            = { context := false, inputBuffer := false, outputBuffer := false })
    ∧ ((PrintInference S cuda.deviceOutput labelFile hotdogMode).threw = true →
        (InferAndProfile S cuda engine batchSize input labelFile hotdogMode).exit = Exit.threw
        ∧ (InferAndProfile S cuda engine batchSize input labelFile hotdogMode).held
            = { context := true, inputBuffer := true, outputBuffer := true }) := by
  obtain ⟨_, _, hthrew, hok⟩ := inferAndProfile_reported S cuda engine batchSize input labelFile
    hotdogMode hb hmi hmo hin hto hfrom
  exact ⟨hok, hthrew⟩

/-- Witness of C7 (as amended): on the AlexNet engine in hotdog mode the run
returns with everything released; in top-k mode with no label file it is left
by the exception with everything still held. -/
theorem C7_release_follows_ranking_witness :
    ((InferAndProfile backSort okCuda alexnetEngine 1 zeroImage none true).exit = Exit.returned
      ∧ (InferAndProfile backSort okCuda alexnetEngine 1 zeroImage none true).held
          = { context := false, inputBuffer := false, outputBuffer := false })
    ∧ ((InferAndProfile backSort okCuda alexnetEngine 1 zeroImage none false).exit = Exit.threw
      ∧ (InferAndProfile backSort okCuda alexnetEngine 1 zeroImage none false).held
          = { context := true, inputBuffer := true, outputBuffer := true }) :=
  ⟨(C7_release_follows_ranking backSort okCuda alexnetEngine 1 zeroImage none true
      rfl rfl rfl zeroImage_size rfl rfl).1
      (by
        obtain ⟨top, htop, _⟩ := rankedResults_head backSort okCuda.deviceOutput
        rw [printInference_hotdog backSort okCuda.deviceOutput none top htop])
      rfl rfl,
    (C7_release_follows_ranking backSort okCuda alexnetEngine 1 zeroImage none false
      rfl rfl rfl zeroImage_size rfl rfl).2
      (printInference_topk_no_labels_threw backSort okCuda.deviceOutput)⟩

/-- C7 (as stated) fails: with every CUDA call succeeding, the AlexNet engine
and a label file that is missing (so the label table is empty), top-k mode
raises inside `PrintInference` and `InferAndProfile` is left with the context
and both device buffers still held, whichever function stands for
`std::sort`. -/
theorem C7_resources_held_when_ranking_raises :
    ReadImageNetLabels none = []
    ∧ ∀ S : StdSort,
      (PrintInference S okCuda.deviceOutput none false).threw = true
      ∧ (InferAndProfile S okCuda alexnetEngine 1 zeroImage none false).exit = Exit.threw
      ∧ (InferAndProfile S okCuda alexnetEngine 1 zeroImage none false).held
          = { context := true, inputBuffer := true, outputBuffer := true } := by
  refine ⟨rfl, ?_⟩
  intro S
  obtain ⟨_, _, hthrew, _⟩ := inferAndProfile_reported S okCuda alexnetEngine 1 zeroImage
    none false rfl rfl rfl zeroImage_size rfl rfl
  exact ⟨printInference_topk_no_labels_threw S okCuda.deviceOutput,
    hthrew (printInference_topk_no_labels_threw S okCuda.deviceOutput)⟩

end AlexNetRT
